import Mathlib

/-!
Verification of the position-to-node mapping and highlight-reconciliation
engine of the YouTube comment text-to-speech content script
(`content.js`, class `YouTubeTTS`).

The DOM subtree under observation is modelled as a tree of text leaves and
element nodes (`DNode`).  Text content is a `List Char` (a JS string is a
sequence of code units; `.trim()` becomes `trimL`, `.substring` becomes
`substringJs`/`substringFrom`, both with JS clamping semantics).  Node
references are modelled by numeric ids: `document.contains(node)` for a node
taken from the session's map becomes "the session root is attached and the
id occurs in the root's subtree".

Each definition carries the source location it embeds.
-/

namespace YtTts

/-- A node of the observed DOM subtree: a text leaf (`Node.TEXT_NODE`) or an
element with a class list and children. -/
inductive DNode where
  | text (id : Nat) (s : List Char)
  | elem (id : Nat) (cls : List String) (children : List DNode)

/-- An entry of `this.textNodesMap` (content.js:269): the node reference, the
node's text content at build time, and the half-open range of flat-text
offsets it occupies.  (`end` is a Lean keyword, so the field is `stop`.) -/
structure Segment where
  nodeId : Nat
  text : List Char
  start : Nat
  stop : Nat
deriving DecidableEq, Repr

/-- The test `!s.trim()` in the walker filters (content.js:229, 258): a JS string
trims to empty iff every character is whitespace. -/
def isBlank (s : List Char) : Bool := s.all Char.isWhitespace

/-- The test `classList.contains('tts-highlight')` (content.js:258). -/
def isHighlight (cls : List String) : Bool := cls.contains "tts-highlight"

/-- JS `String.prototype.trim()` (content.js:242): strip leading and trailing
whitespace. -/
def trimL (s : List Char) : List Char :=
  ((s.dropWhile Char.isWhitespace).reverse.dropWhile Char.isWhitespace).reverse

/-- JS `s.substring(a, b)` for `a ≤ b` (content.js:308-309): the code units
in `[min(a, len), min(b, len))`. -/
def substringJs (s : List Char) (a b : Nat) : List Char := (s.take b).drop a

/-- JS `s.substring(a)` (content.js:310): the code units from `min(a, len)`
to the end. -/
def substringFrom (s : List Char) (a : Nat) : List Char := s.drop a

/-- Concatenation of `node.textContent` over a list of nodes: the full text
under the nodes in document order. -/
def textContentL : List DNode → List Char
  | [] => []
  | .text _ s :: rest => s ++ textContentL rest
  | .elem _ _ cs :: rest => textContentL cs ++ textContentL rest

/-- Reading `node.textContent` (content.js:307, 340). -/
def textContent : DNode → List Char
  | .text _ s => s
  | .elem _ _ cs => textContentL cs

/-- All node ids occurring in a list of subtrees, in document order. -/
def idsOfL : List DNode → List Nat
  | [] => []
  | .text id _ :: rest => id :: idsOfL rest
  | .elem id _ cs :: rest => id :: (idsOfL cs ++ idsOfL rest)

/-- All node ids occurring in a subtree. -/
def idsOf : DNode → List Nat
  | .text id _ => [id]
  | .elem id _ cs => id :: idsOfL cs

/-- The text nodes accepted by the `extractCommentText` TreeWalker
(content.js:223-240): document order, whitespace-only leaves rejected.  This
filter has no `tts-highlight` clause. -/
def walkerTextsL : List DNode → List (List Char)
  | [] => []
  | .text _ s :: rest => (if isBlank s then [] else [s]) ++ walkerTextsL rest
  | .elem _ _ cs :: rest => walkerTextsL cs ++ walkerTextsL rest

/-- The `extractCommentText` walker run over a root element: a TreeWalker
visits only the descendants of its root. -/
def walkerTexts : DNode → List (List Char)
  | .text _ _ => []
  | .elem _ _ cs => walkerTextsL cs

/-- Embedding of `extractCommentText` (content.js:218-243): `text += node.textContent + ' '`
for each accepted node, then `text.trim()`. -/
def extractCommentText (root : DNode) : List Char :=
  trimL ((walkerTexts root).foldl (fun acc s => acc ++ s ++ [' ']) [])

/-- The text nodes accepted by the `buildTextNodesMap` TreeWalker
(content.js:253-264): whitespace-only leaves rejected, and a leaf whose
`parentNode` carries class `tts-highlight` rejected.  `parentHl` is whether
the immediate parent of the nodes in the list is a highlight span. -/
def mapLeavesL (parentHl : Bool) : List DNode → List (Nat × List Char)
  | [] => []
  | .text id s :: rest =>
      (if isBlank s || parentHl then [] else [(id, s)]) ++ mapLeavesL parentHl rest
  | .elem _ cls cs :: rest => mapLeavesL (isHighlight cls) cs ++ mapLeavesL parentHl rest

/-- The `buildTextNodesMap` walker run over a root element. -/
def mapLeaves : DNode → List (Nat × List Char)
  | .text _ _ => []
  | .elem _ cls cs => mapLeavesL (isHighlight cls) cs

/-- The offset-assignment loop of `buildTextNodesMap` (content.js:266-272):
push `{node, start: offset, end: offset + text.length}` and advance the
offset by `text.length` only ("No extra space", content.js:270). -/
def buildSegs : List (Nat × List Char) → Nat → List Segment
  | [], _ => []
  | (id, s) :: rest, o =>
      { nodeId := id, text := s, start := o, stop := o + s.length } :: buildSegs rest (o + s.length)

/-- DOM `Node.normalize()` at one sibling level: remove empty text nodes and
merge runs of adjacent text nodes. -/
def mergeTexts : List DNode → List DNode
  | [] => []
  | .elem id cls cs :: rest => .elem id cls cs :: mergeTexts rest
  | .text id s :: rest =>
      match mergeTexts rest with
      | .text _ t :: rest2 => if s ++ t = [] then rest2 else .text id (s ++ t) :: rest2
      | other => if s = [] then other else .text id s :: other

/-- DOM `Node.normalize()` applied to every sibling level of a list of
subtrees. -/
def normalizeL : List DNode → List DNode
  | [] => []
  | .text id s :: rest => .text id s :: normalizeL rest
  | .elem id cls cs :: rest => .elem id cls (mergeTexts (normalizeL cs)) :: normalizeL rest

/-- Embedding of `commentElement.normalize()` (content.js:144, 251): canonicalize the
whole subtree below the root. -/
def normalizeTree : DNode → DNode
  | .text id s => .text id s
  | .elem id cls cs => .elem id cls (mergeTexts (normalizeL cs))

/-- Embedding of `buildTextNodesMap` as a function of the element (content.js:245-273):
the element is normalized first (content.js:251), then the walker assigns
offsets. -/
def buildTextNodesMap (root : DNode) : List Segment :=
  buildSegs (mapLeaves (normalizeTree root)) 0

/-- The effect of `buildTextNodesMap` on the document: the normalized element,
and the map built over it. -/
def buildMapOn (root : DNode) : DNode × List Segment :=
  (normalizeTree root, buildTextNodesMap root)

/-- The concatenation, in segment order, of each segment's text content as
recorded in the map. -/
def mapText (m : List Segment) : List Char :=
  m.foldr (fun seg acc => seg.text ++ acc) []

/-- The effect on the document of the
`highlights.forEach(span => parent.replaceChild(textNode, span))` loop of
`clearAllHighlights` (content.js:337-343): every descendant element with
class `tts-highlight` is replaced by a plain text node carrying its
`textContent`.  (`querySelectorAll` matches descendants of the root only,
so the root element itself is never unwrapped.) -/
def unwrapL : List DNode → List DNode
  | [] => []
  | .text id s :: rest => .text id s :: unwrapL rest
  | .elem id cls cs :: rest =>
      (if isHighlight cls then DNode.text id (textContentL cs) else DNode.elem id cls (unwrapL cs))
        :: unwrapL rest

/-- The unwrap loop applied below a root element. -/
def unwrapRoot : DNode → DNode
  | .text id s => .text id s
  | .elem id cls cs => .elem id cls (unwrapL cs)

/-- The text-node scan of `highlightWord` (content.js:289-299): first
segment with `start <= charIndex < end`; `nodeOffset = charIndex - start`. -/
def findTarget : List Segment → Nat → Option (Nat × Nat)
  | [], _ => none
  | seg :: rest, ci =>
      if seg.start ≤ ci ∧ ci < seg.stop then some (seg.nodeId, ci - seg.start)
      else findTarget rest ci

/-- First node with a given id, in document order (the map stores node
object references; ids model object identity). -/
def findNodeByIdL (i : Nat) : List DNode → Option DNode
  | [] => none
  | .text id s :: rest => if id = i then some (.text id s) else findNodeByIdL i rest
  | .elem id cls cs :: rest =>
      if id = i then some (.elem id cls cs)
      else
        match findNodeByIdL i cs with
        | some n => some n
        | none => findNodeByIdL i rest

/-- First node with a given id in a subtree. -/
def findNodeById (i : Nat) : DNode → Option DNode
  | .text id s => if id = i then some (.text id s) else none
  | .elem id cls cs => if id = i then some (.elem id cls cs) else findNodeByIdL i cs

/-- The splice of `highlightWord` (content.js:320-323): replace the (unique,
first-in-document-order) node carrying the target id by a given list of new
siblings.  `parent.insertBefore(beforeNode); insertBefore(span);
insertBefore(afterNode); removeChild(targetNode)` is exactly this splice
with the three new nodes.  A node is descended into only if it holds the
id, so at most one replacement happens. -/
def replaceFirstL (i : Nat) (repl : List DNode) : List DNode → List DNode
  | [] => []
  | .text id s :: rest =>
      if id = i then repl ++ rest else .text id s :: replaceFirstL i repl rest
  | .elem id cls cs :: rest =>
      if id = i then repl ++ rest
      else if i ∈ idsOfL cs then .elem id cls (replaceFirstL i repl cs) :: rest
      else .elem id cls cs :: replaceFirstL i repl rest

/-- The splice below the root (the target is always a text leaf strictly
below the comment element, whose parent performs the splice). -/
def replaceFirst (i : Nat) (repl : List DNode) : DNode → DNode
  | .text id s => .text id s
  | .elem id cls cs => .elem id cls (replaceFirstL i repl cs)

/-- Number of decoration markers (elements with class `tts-highlight`) in a
list of subtrees. -/
def countHlL : List DNode → Nat
  | [] => 0
  | .text _ _ :: rest => countHlL rest
  | .elem _ cls cs :: rest => (if isHighlight cls then 1 else 0) + countHlL cs + countHlL rest

/-- Number of decoration markers strictly below a root: the scope of
`commentsSection.querySelectorAll('.tts-highlight')` (content.js:337). -/
def markerCount : DNode → Nat
  | .text _ _ => 0
  | .elem _ _ cs => countHlL cs

/-- The session state of the `YouTubeTTS` instance: the observed comment
subtree, whether it is still attached to the live document, and the fields
`textNodesMap` and `currentHighlightSpan`.  `nextId` supplies fresh ids for
nodes created by `document.createElement`/`createTextNode`. -/
structure TtsState where
  tree : DNode
  attached : Bool
  textNodesMap : List Segment
  currentHighlightSpan : Option Nat
  nextId : Nat

/-- Embedding of `clearAllHighlights` (content.js:333-352): unwrap every `tts-highlight`
span reachable in the live document (with `parent.normalize()` after each),
null the span reference, and — when the session's comment element is still
attached — rebuild `textNodesMap` via `buildTextNodesMap`, which normalizes
the element (content.js:251); the whole-element normalize subsumes the
per-parent normalizes, so the net tree effect is unwrap-then-normalize.
When the element is detached, the map is simply emptied (content.js:350)
and the detached subtree is not reachable from the live `#comments`
section, so it is left untouched. -/
def clearAllHighlights (st : TtsState) : TtsState :=
  if st.attached then
    { st with
      tree := (buildMapOn (unwrapRoot st.tree)).1,
      textNodesMap := (buildMapOn (unwrapRoot st.tree)).2,
      currentHighlightSpan := none }
  else
    { st with textNodesMap := [], currentHighlightSpan := none }

/-- Lines 289-331 of `highlightWord`: scan the map for the target; do
nothing on a miss; check `document.contains(targetNode)` (the session tree
is attached and the id occurs in it); split the target's current text into
`before`/`word`/`after` (content.js:307-310); splice
`[before, span(word), after]` in place of the target (content.js:318-323);
rebuild the map over the mutated element (content.js:326-327); record the
new span (content.js:329). -/
def markStep (ci cl : Nat) (st : TtsState) : TtsState :=
  match findTarget st.textNodesMap ci with
  | none => st
  | some (nid, off) =>
      if st.attached = true ∧ nid ∈ idsOf st.tree then
        match findNodeById nid st.tree with
        | some (.text _ s) =>
            { tree := (buildMapOn (replaceFirst nid
                [DNode.text (st.nextId + 2) (substringJs s 0 off),
                 DNode.elem st.nextId ["tts-highlight"]
                   [DNode.text (st.nextId + 1) (substringJs s off (off + cl))],
                 DNode.text (st.nextId + 3) (substringFrom s (off + cl))] st.tree)).1,
              attached := st.attached,
              textNodesMap := (buildMapOn (replaceFirst nid
                [DNode.text (st.nextId + 2) (substringJs s 0 off),
                 DNode.elem st.nextId ["tts-highlight"]
                   [DNode.text (st.nextId + 1) (substringJs s off (off + cl))],
                 DNode.text (st.nextId + 3) (substringFrom s (off + cl))] st.tree)).2,
              currentHighlightSpan := some st.nextId,
              nextId := st.nextId + 4 }
        | _ => st
      else st

/-- Embedding of `highlightWord` (content.js:275-331): clear previous highlight, rebuild
the map if it is empty or the comment element is detached (content.js:280-
287, returning if it is still empty), then perform the mark step. -/
def highlightWord (ci cl : Nat) (st : TtsState) : TtsState :=
  if (clearAllHighlights st).textNodesMap.isEmpty ∨ st.attached = false then
    if (buildMapOn (clearAllHighlights st).tree).2.isEmpty then
      { clearAllHighlights st with
        tree := (buildMapOn (clearAllHighlights st).tree).1,
        textNodesMap := (buildMapOn (clearAllHighlights st).tree).2 }
    else
      markStep ci cl
        { clearAllHighlights st with
          tree := (buildMapOn (clearAllHighlights st).tree).1,
          textNodesMap := (buildMapOn (clearAllHighlights st).tree).2 }
  else
    markStep ci cl (clearAllHighlights st)

/-- The external events driving the reconciler: a word boundary progress
event (content.js:197-199) and a terminal transition (`onend`,
`onerror`, user stop — content.js:113-123, 176-193). -/
inductive TtsEvent where
  | word (ci cl : Nat)
  | terminal

/-- One step of the event handlers: a word boundary runs `highlightWord`
when the comment element is attached (content.js:198-199) and otherwise
cancels and clears (content.js:200-206); every terminal transition runs
`clearAllHighlights` and discards the map (content.js:176-193). -/
def stepEvent (st : TtsState) : TtsEvent → TtsState
  | .word ci cl => if st.attached then highlightWord ci cl st else clearAllHighlights st
  | .terminal => { clearAllHighlights st with textNodesMap := [] }

/-- Markers visible in the observed (live) part of the document. -/
def observedMarkers (st : TtsState) : Nat :=
  if st.attached then markerCount st.tree else 0

/-- Every text leaf strictly below a root element, in document order,
annotated with whether its immediate parent carries class `tts-highlight`:
the common enumeration both walkers filter. -/
def allLeavesL (parentHl : Bool) : List DNode → List (Bool × Nat × List Char)
  | [] => []
  | .text id s :: rest => (parentHl, id, s) :: allLeavesL parentHl rest
  | .elem _ cls cs :: rest => allLeavesL (isHighlight cls) cs ++ allLeavesL parentHl rest

/-- The annotated leaves below a root. -/
def allLeavesUnder : DNode → List (Bool × Nat × List Char)
  | .text _ _ => []
  | .elem _ cls cs => allLeavesL (isHighlight cls) cs

/-- A one-hole context singling out one position inside a tree's child
lists; the hole is filled with a list of siblings. -/
inductive Ctx where
  | here (id : Nat) (cls : List String) (l r : List DNode)
  | deeper (id : Nat) (cls : List String) (l : List DNode) (c : Ctx) (r : List DNode)

/-- Fill the hole of a context with a list of siblings. -/
def Ctx.plug : Ctx → List DNode → DNode
  | .here id cls l r, ns => .elem id cls (l ++ ns ++ r)
  | .deeper id cls l c r, ns => .elem id cls (l ++ c.plug ns :: r)

/-- All node ids of a context (spine elements and the subtrees beside the
hole). -/
def ctxIds : Ctx → List Nat
  | .here id _ l r => id :: (idsOfL l ++ idsOfL r)
  | .deeper id _ l c r => id :: (idsOfL l ++ ctxIds c ++ idsOfL r)

/-- The id of the element a context's plug produces at its top. -/
def ctxHeadId : Ctx → Nat
  | .here id _ _ _ => id
  | .deeper id _ _ _ _ => id

/-- Scenario A of the spec: a root whose two text leaves are
"Hello " and "world!" (the second inside a child element, as YouTube
renders mentions/links; adjacent sibling text leaves would be merged by
`normalize()`). -/
def demoA : DNode :=
  DNode.elem 0 [] [DNode.text 1 "Hello ".toList, DNode.elem 2 [] [DNode.text 3 "world!".toList]]

/-- A comment with two text leaves "Hello" and "world", the second inside a
child element: the shape on which the separator policies of
`extractCommentText` and `buildTextNodesMap` diverge. -/
def sepTree : DNode :=
  DNode.elem 0 [] [DNode.text 1 "Hello".toList, DNode.elem 2 [] [DNode.text 3 "world".toList]]

/-- A root whose only content is a decoration marker holding "Hi". -/
def hlTree1 : DNode :=
  DNode.elem 0 [] [DNode.elem 1 ["tts-highlight"] [DNode.text 2 "Hi".toList]]

/-- A root holding a decoration marker whose content wraps a further
element around the text leaf "deep". -/
def hlTree2 : DNode :=
  DNode.elem 0 []
    [DNode.elem 1 ["tts-highlight"] [DNode.elem 2 [] [DNode.text 3 "deep".toList]]]

/-- An attached session with no active marker whose root holds two adjacent
sibling text leaves (as an external renderer may leave them). -/
def unmergedState : TtsState :=
  { tree := DNode.elem 0 [] [DNode.text 1 "a".toList, DNode.text 2 "b".toList],
    attached := true, textNodesMap := [], currentHighlightSpan := none, nextId := 10 }

/-- A session whose comment element has been detached by the external
renderer while a marker-bearing subtree and a stale map are still held. -/
def detachedState : TtsState :=
  { tree := DNode.elem 0 [] [DNode.text 1 "x".toList],
    attached := false,
    textNodesMap := [{ nodeId := 1, text := "x".toList, start := 0, stop := 1 }],
    currentHighlightSpan := none, nextId := 5 }

/-- An attached session holding a stale map: the mapped node (id 99) was
removed from the subtree by the external renderer. -/
def staleMapState : TtsState :=
  { tree := DNode.elem 0 [] [DNode.text 1 "x".toList],
    attached := true,
    textNodesMap := [{ nodeId := 99, text := "zz".toList, start := 0, stop := 2 }],
    currentHighlightSpan := none, nextId := 5 }

/-- An attached session on Scenario A's tree with its freshly built map. -/
def demoAState : TtsState :=
  { tree := demoA, attached := true, textNodesMap := buildTextNodesMap demoA,
    currentHighlightSpan := none, nextId := 10 }

/-- An attached session whose root holds the single text leaf "hey" (id 7)
with its map, used to exercise the mark step concretely. -/
def c5state : TtsState :=
  { tree := DNode.elem 0 [] [DNode.text 7 "hey".toList],
    attached := true,
    textNodesMap := [{ nodeId := 7, text := "hey".toList, start := 0, stop := 3 }],
    currentHighlightSpan := none, nextId := 20 }

/-- An attached, already-normalized, marker-free session. -/
def plainState : TtsState :=
  { tree := DNode.elem 0 [] [DNode.text 1 "hi".toList],
    attached := true, textNodesMap := [], currentHighlightSpan := some 3, nextId := 9 }

/-! ### Induction principles for the nested tree type -/

/-- Simultaneous induction on trees and child lists. -/
theorem dnodeInd {P : DNode → Prop} {Q : List DNode → Prop}
    (ht : ∀ id s, P (DNode.text id s))
    (he : ∀ id cls cs, Q cs → P (DNode.elem id cls cs))
    (hn : Q [])
    (hc : ∀ n ns, P n → Q ns → Q (n :: ns)) :
    (∀ t, P t) ∧ (∀ l, Q l) := by
  have h1 : ∀ t, P t := fun t => DNode.rec ht he hn hc t
  exact ⟨h1, fun l => List.rec hn (fun n ns ih => hc n ns (h1 n) ih) l⟩

/-- Induction over child lists matching the recursion pattern of the
traversal functions: the empty list, a text head, an element head with
access to the hypothesis for its children. -/
theorem nodeListInd {Q : List DNode → Prop}
    (hnil : Q [])
    (htext : ∀ id s rest, Q rest → Q (DNode.text id s :: rest))
    (helem : ∀ id cls cs rest, Q cs → Q rest → Q (DNode.elem id cls cs :: rest)) :
    ∀ l, Q l := by
  have h := dnodeInd (P := fun t => ∀ rest, Q rest → Q (t :: rest)) (Q := Q)
    (fun id s rest hr => htext id s rest hr)
    (fun id cls cs hcs rest hr => helem id cls cs rest hcs hr)
    hnil
    (fun n ns hp hq => hp ns hq)
  exact h.2

/-! ### Text-content lemmas -/

theorem textContentL_append (l1 l2 : List DNode) :
    textContentL (l1 ++ l2) = textContentL l1 ++ textContentL l2 := by
  induction l1 using nodeListInd with
  | hnil => simp [textContentL]
  | htext id s rest ih => simp [textContentL, ih]
  | helem id cls cs rest hcs ih => simp [textContentL, ih]

theorem textContentL_unwrapL (l : List DNode) :
    textContentL (unwrapL l) = textContentL l := by
  induction l using nodeListInd with
  | hnil => simp [unwrapL]
  | htext id s rest ih => simp [unwrapL, textContentL, ih]
  | helem id cls cs rest hcs ih =>
      by_cases h : isHighlight cls = true
      · simp [unwrapL, textContentL, h, ih]
      · simp [unwrapL, textContentL, h, ih, hcs]

theorem textContentL_mergeTexts (l : List DNode) :
    textContentL (mergeTexts l) = textContentL l := by
  induction l with
  | nil => simp [mergeTexts]
  | cons n rest ih =>
      cases n with
      | elem id cls cs => simp [mergeTexts, textContentL, ih]
      | text id s =>
          rcases h : mergeTexts rest with _ | ⟨m, rest2⟩
          · rw [h] at ih
            by_cases hs : s = []
            · simp [mergeTexts, h, hs, textContentL, ih.symm]
            · simp [mergeTexts, h, hs, textContentL, ih.symm]
          · cases m with
            | text id2 t =>
                rw [h] at ih
                by_cases hst : s ++ t = []
                · have hs : s = [] := by
                    cases List.append_eq_nil.mp hst; assumption
                  have ht : t = [] := by
                    cases List.append_eq_nil.mp hst; assumption
                  simp [mergeTexts, h, hst, textContentL, hs] at ih ⊢
                  rw [← ih]
                  simp [textContentL, ht]
                · simp only [mergeTexts, h, hst, if_false, textContentL] at ih ⊢
                  rw [List.append_assoc, ih]
            | elem id2 cls2 cs2 =>
                rw [h] at ih
                by_cases hs : s = []
                · simp [mergeTexts, h, hs, textContentL, ih.symm]
                · simp [mergeTexts, h, hs, textContentL, ih.symm]

theorem textContentL_normalizeL (l : List DNode) :
    textContentL (normalizeL l) = textContentL l := by
  induction l using nodeListInd with
  | hnil => simp [normalizeL]
  | htext id s rest ih => simp [normalizeL, textContentL, ih]
  | helem id cls cs rest hcs ih =>
      simp [normalizeL, textContentL, ih, textContentL_mergeTexts, hcs]

theorem textContent_normalizeTree (t : DNode) :
    textContent (normalizeTree t) = textContent t := by
  cases t with
  | text id s => simp [normalizeTree, textContent]
  | elem id cls cs =>
      simp [normalizeTree, textContent, textContentL_mergeTexts, textContentL_normalizeL]

theorem textContent_unwrapRoot (t : DNode) :
    textContent (unwrapRoot t) = textContent t := by
  cases t with
  | text id s => simp [unwrapRoot]
  | elem id cls cs => simp [unwrapRoot, textContent, textContentL_unwrapL]

/-! ### Node-id lookup lemmas -/

theorem findNodeByIdL_isSome_iff (i : Nat) (l : List DNode) :
    (findNodeByIdL i l).isSome = true ↔ i ∈ idsOfL l := by
  induction l using nodeListInd with
  | hnil => simp [findNodeByIdL, idsOfL]
  | htext id s rest ih =>
      by_cases h : id = i
      · simp [findNodeByIdL, idsOfL, h]
      · have h2 : ¬ i = id := fun hh => h hh.symm
        simp [findNodeByIdL, idsOfL, h, h2, ih]
  | helem id cls cs rest hcs ih =>
      by_cases h : id = i
      · simp [findNodeByIdL, idsOfL, h]
      · have h2 : ¬ i = id := fun hh => h hh.symm
        rcases hf : findNodeByIdL i cs with _ | n
        · have : ¬ i ∈ idsOfL cs := by
            rw [← hcs, hf]; simp
          simp [findNodeByIdL, idsOfL, h, h2, hf, ih, this]
        · have : i ∈ idsOfL cs := by
            rw [← hcs, hf]; simp
          simp [findNodeByIdL, idsOfL, h, h2, hf, this]

theorem findNodeByIdL_eq_none (i : Nat) (l : List DNode) (h : ¬ i ∈ idsOfL l) :
    findNodeByIdL i l = none := by
  rcases hf : findNodeByIdL i l with _ | n
  · rfl
  · exact absurd ((findNodeByIdL_isSome_iff i l).mp (by rw [hf]; rfl)) h

theorem textContentL_replaceFirstL (i : Nat) (repl : List DNode) (l : List DNode) :
    ∀ j s, findNodeByIdL i l = some (DNode.text j s) → textContentL repl = s →
    textContentL (replaceFirstL i repl l) = textContentL l := by
  induction l using nodeListInd with
  | hnil => intro j s hf; simp [findNodeByIdL] at hf
  | htext id t rest ih =>
      intro j s hf hr
      by_cases h : id = i
      · simp [findNodeByIdL, h] at hf
        rw [replaceFirstL, if_pos h, textContentL_append, hr, textContentL, hf.2]
      · simp only [findNodeByIdL, h, if_false] at hf
        rw [replaceFirstL, if_neg h]
        simp [textContentL, ih j s hf hr]
  | helem id cls cs rest hcs ih =>
      intro j s hf hr
      by_cases h : id = i
      · simp [findNodeByIdL, h] at hf
      · simp only [findNodeByIdL, h, if_false] at hf
        rcases hsub : findNodeByIdL i cs with _ | n
        · rw [hsub] at hf
          have hmem : ¬ i ∈ idsOfL cs := by
            intro hm
            have := (findNodeByIdL_isSome_iff i cs).mpr hm
            rw [hsub] at this; simp at this
          rw [replaceFirstL, if_neg h, if_neg hmem]
          simp [textContentL, ih j s hf hr]
        · rw [hsub] at hf
          have hmem : i ∈ idsOfL cs := by
            exact (findNodeByIdL_isSome_iff i cs).mp (by rw [hsub]; rfl)
          rw [replaceFirstL, if_neg h, if_pos hmem]
          have hn : n = DNode.text j s := by
            cases hf; rfl
          rw [hn] at hsub
          simp [textContentL, hcs j s hsub hr]

theorem textContent_replaceFirst (i : Nat) (repl : List DNode) (t : DNode)
    (j : Nat) (s : List Char)
    (hf : findNodeById i t = some (DNode.text j s)) (hr : textContentL repl = s) :
    textContent (replaceFirst i repl t) = textContent t := by
  cases t with
  | text id u => simp [replaceFirst]
  | elem id cls cs =>
      by_cases h : id = i
      · simp [findNodeById, h] at hf
      · simp only [findNodeById, h, if_false] at hf
        simp [replaceFirst, textContent, textContentL_replaceFirstL i repl cs j s hf hr]

/-! ### The three-way substring split -/

theorem substring_split (s : List Char) (off cl : Nat) :
    substringJs s 0 off ++ substringJs s off (off + cl) ++ substringFrom s (off + cl) = s := by
  unfold substringJs substringFrom
  rw [List.drop_zero, List.drop_take, ← List.drop_drop, Nat.add_sub_cancel_left]
  rw [List.append_assoc, List.take_append_drop, List.take_append_drop]

/-! ### Marker-count lemmas -/

theorem countHlL_append (l1 l2 : List DNode) :
    countHlL (l1 ++ l2) = countHlL l1 + countHlL l2 := by
  induction l1 using nodeListInd with
  | hnil => simp [countHlL]
  | htext id s rest ih => simp [countHlL, ih]
  | helem id cls cs rest hcs ih => simp [countHlL, ih]; omega

theorem countHlL_unwrapL (l : List DNode) : countHlL (unwrapL l) = 0 := by
  induction l using nodeListInd with
  | hnil => simp [unwrapL, countHlL]
  | htext id s rest ih => simp [unwrapL, countHlL, ih]
  | helem id cls cs rest hcs ih =>
      by_cases h : isHighlight cls = true
      · simp [unwrapL, countHlL, h, ih]
      · simp [unwrapL, countHlL, h, ih, hcs]

theorem countHlL_mergeTexts (l : List DNode) : countHlL (mergeTexts l) = countHlL l := by
  induction l with
  | nil => simp [mergeTexts]
  | cons n rest ih =>
      cases n with
      | elem id cls cs => simp [mergeTexts, countHlL, ih]
      | text id s =>
          rcases h : mergeTexts rest with _ | ⟨m, rest2⟩
          · rw [h] at ih
            by_cases hs : s = [] <;> simp [mergeTexts, h, hs, countHlL, ih.symm]
          · cases m with
            | text id2 t =>
                rw [h] at ih
                by_cases hst : s ++ t = []
                · simp only [mergeTexts, h, hst, if_pos, countHlL] at ih ⊢
                  omega
                · simp only [mergeTexts, h, hst, if_false, countHlL] at ih ⊢
                  omega
            | elem id2 cls2 cs2 =>
                rw [h] at ih
                by_cases hs : s = [] <;> simp [mergeTexts, h, hs, countHlL, ih.symm]

theorem countHlL_normalizeL (l : List DNode) : countHlL (normalizeL l) = countHlL l := by
  induction l using nodeListInd with
  | hnil => simp [normalizeL]
  | htext id s rest ih => simp [normalizeL, countHlL, ih]
  | helem id cls cs rest hcs ih =>
      simp [normalizeL, countHlL, ih, countHlL_mergeTexts, hcs]

theorem markerCount_normalizeTree (t : DNode) :
    markerCount (normalizeTree t) = markerCount t := by
  cases t with
  | text id s => simp [normalizeTree, markerCount]
  | elem id cls cs =>
      simp [normalizeTree, markerCount, countHlL_mergeTexts, countHlL_normalizeL]

theorem countHlL_replaceFirstL (i : Nat) (repl : List DNode) (l : List DNode) :
    countHlL (replaceFirstL i repl l) ≤ countHlL l + countHlL repl := by
  induction l using nodeListInd with
  | hnil => simp [replaceFirstL, countHlL]
  | htext id s rest ih =>
      by_cases h : id = i
      · rw [replaceFirstL, if_pos h, countHlL_append]
        simp [countHlL]; omega
      · rw [replaceFirstL, if_neg h]
        simp [countHlL]; omega
  | helem id cls cs rest hcs ih =>
      by_cases h : id = i
      · rw [replaceFirstL, if_pos h, countHlL_append]
        simp [countHlL]; omega
      · by_cases hm : i ∈ idsOfL cs
        · rw [replaceFirstL, if_neg h, if_pos hm]
          simp [countHlL]; omega
        · rw [replaceFirstL, if_neg h, if_neg hm]
          simp [countHlL]; omega

theorem markerCount_replaceFirst (i : Nat) (repl : List DNode) (t : DNode) :
    markerCount (replaceFirst i repl t) ≤ markerCount t + countHlL repl := by
  cases t with
  | text id s => simp [replaceFirst, markerCount]
  | elem id cls cs => simpa [replaceFirst, markerCount] using countHlL_replaceFirstL i repl cs

/-! ### Effect of the state operations on text content and marker count -/

theorem clearAllHighlights_attached (st : TtsState) :
    (clearAllHighlights st).attached = st.attached := by
  unfold clearAllHighlights
  by_cases h : st.attached = true <;> simp [h]

theorem textContent_clearAllHighlights (st : TtsState) :
    textContent (clearAllHighlights st).tree = textContent st.tree := by
  unfold clearAllHighlights
  by_cases h : st.attached = true
  · simp [h, buildMapOn, textContent_normalizeTree, textContent_unwrapRoot]
  · simp [h]

theorem markerCount_clearAllHighlights (st : TtsState) (h : st.attached = true) :
    markerCount (clearAllHighlights st).tree = 0 := by
  unfold clearAllHighlights
  rw [if_pos h]
  show markerCount (buildMapOn (unwrapRoot st.tree)).1 = 0
  rw [buildMapOn, markerCount_normalizeTree]
  cases hu : st.tree with
  | text id s => simp [unwrapRoot, markerCount]
  | elem id cls cs => simp [unwrapRoot, markerCount, countHlL_unwrapL]

theorem textContent_markStep (ci cl : Nat) (st : TtsState) :
    textContent (markStep ci cl st).tree = textContent st.tree := by
  rcases hft : findTarget st.textNodesMap ci with _ | ⟨nid, off⟩
  · simp [markStep, hft]
  · by_cases hg : st.attached = true ∧ nid ∈ idsOf st.tree
    · rcases hfn : findNodeById nid st.tree with _ | n
      · simp [markStep, hft, hg, hfn]
      · cases n with
        | elem j cls cs => simp [markStep, hft, hg, hfn]
        | text j s =>
            simp only [markStep, hft, if_pos hg, hfn, buildMapOn]
            rw [textContent_normalizeTree]
            refine textContent_replaceFirst nid _ st.tree j s hfn ?_
            simp only [textContentL]
            rw [List.append_nil, List.append_nil, ← List.append_assoc]
            exact substring_split s off cl
    · simp [markStep, hft, hg]

theorem markStep_attached (ci cl : Nat) (st : TtsState) :
    (markStep ci cl st).attached = st.attached := by
  rcases hft : findTarget st.textNodesMap ci with _ | ⟨nid, off⟩
  · simp [markStep, hft]
  · by_cases hg : st.attached = true ∧ nid ∈ idsOf st.tree
    · rcases hfn : findNodeById nid st.tree with _ | n
      · simp [markStep, hft, hg, hfn]
      · cases n with
        | elem j cls cs => simp [markStep, hft, hg, hfn]
        | text j s => simp [markStep, hft, if_pos hg, hfn]
    · simp [markStep, hft, hg]

theorem markerCount_markStep (ci cl : Nat) (st : TtsState) :
    markerCount (markStep ci cl st).tree ≤ markerCount st.tree + 1 := by
  rcases hft : findTarget st.textNodesMap ci with _ | ⟨nid, off⟩
  · simp [markStep, hft]
  · by_cases hg : st.attached = true ∧ nid ∈ idsOf st.tree
    · rcases hfn : findNodeById nid st.tree with _ | n
      · simp [markStep, hft, hg, hfn]
      · cases n with
        | elem j cls cs => simp [markStep, hft, hg, hfn]
        | text j s =>
            simp only [markStep, hft, if_pos hg, hfn, buildMapOn]
            rw [markerCount_normalizeTree]
            refine le_trans (markerCount_replaceFirst nid _ st.tree) ?_
            have : countHlL
                [DNode.text (st.nextId + 2) (substringJs s 0 off),
                 DNode.elem st.nextId ["tts-highlight"]
                   [DNode.text (st.nextId + 1) (substringJs s off (off + cl))],
                 DNode.text (st.nextId + 3) (substringFrom s (off + cl))] = 1 := by
              simp [countHlL, isHighlight]
            omega
    · simp [markStep, hft, hg]

theorem markerCount_highlightWord (ci cl : Nat) (st : TtsState) (h : st.attached = true) :
    markerCount (highlightWord ci cl st).tree ≤ 1 := by
  have h0 : markerCount (clearAllHighlights st).tree = 0 := markerCount_clearAllHighlights st h
  have hn : markerCount (buildMapOn (clearAllHighlights st).tree).1 = 0 := by
    rw [buildMapOn, markerCount_normalizeTree]; exact h0
  unfold highlightWord
  by_cases hc : (clearAllHighlights st).textNodesMap.isEmpty = true ∨ st.attached = false
  · rw [if_pos hc]
    by_cases he : (buildMapOn (clearAllHighlights st).tree).2.isEmpty = true
    · rw [if_pos he]
      show markerCount (buildMapOn (clearAllHighlights st).tree).1 ≤ 1
      rw [hn]; omega
    · rw [if_neg he]
      refine le_trans (markerCount_markStep ci cl _) ?_
      show markerCount (buildMapOn (clearAllHighlights st).tree).1 + 1 ≤ 1
      rw [hn]
  · rw [if_neg hc]
    refine le_trans (markerCount_markStep ci cl _) ?_
    rw [h0]


theorem highlightWord_attached (ci cl : Nat) (st : TtsState) :
    (highlightWord ci cl st).attached = st.attached := by
  unfold highlightWord
  by_cases hc : (clearAllHighlights st).textNodesMap.isEmpty = true ∨ st.attached = false
  · rw [if_pos hc]
    by_cases he : (buildMapOn (clearAllHighlights st).tree).2.isEmpty = true
    · rw [if_pos he]
      simpa using clearAllHighlights_attached st
    · rw [if_neg he, markStep_attached]
      simpa using clearAllHighlights_attached st
  · rw [if_neg hc, markStep_attached]
    exact clearAllHighlights_attached st

theorem observedMarkers_stepEvent (st : TtsState) (e : TtsEvent) :
    observedMarkers (stepEvent st e) ≤ 1 := by
  cases e with
  | word ci cl =>
      by_cases h : st.attached = true
      · rw [stepEvent, if_pos h, observedMarkers]
        by_cases h2 : (highlightWord ci cl st).attached = true
        · rw [if_pos h2]
          exact markerCount_highlightWord ci cl st h
        · rw [if_neg h2]
          omega
      · rw [stepEvent, if_neg h, observedMarkers]
        have : (clearAllHighlights st).attached = st.attached := clearAllHighlights_attached st
        have hf : (clearAllHighlights st).attached = false := by
          rw [this]
          exact Bool.not_eq_true st.attached |>.mp h
        rw [if_neg (by rw [hf]; simp)]
        omega
  | terminal =>
      rw [stepEvent, observedMarkers]
      by_cases h : st.attached = true
      · have h2 : ({ clearAllHighlights st with textNodesMap := [] } : TtsState).attached = true := by
          show (clearAllHighlights st).attached = true
          rw [clearAllHighlights_attached st]; exact h
        rw [if_pos h2]
        show markerCount (clearAllHighlights st).tree ≤ 1
        rw [markerCount_clearAllHighlights st h]
        omega
      · have h2 : ¬ ({ clearAllHighlights st with textNodesMap := [] } : TtsState).attached = true := by
          show ¬ (clearAllHighlights st).attached = true
          rw [clearAllHighlights_attached st]; exact h
        rw [if_neg h2]
        omega

theorem observedMarkers_foldl (evs : List TtsEvent) (st : TtsState)
    (h : observedMarkers st ≤ 1) : observedMarkers (evs.foldl stepEvent st) ≤ 1 := by
  induction evs generalizing st with
  | nil => simpa using h
  | cons e rest ih =>
      rw [List.foldl_cons]
      exact ih (stepEvent st e) (observedMarkers_stepEvent st e)

/-! ### Resolver characterization -/

theorem findTarget_some_spec (m : List Segment) (ci nid off : Nat)
    (h : findTarget m ci = some (nid, off)) :
    ∃ pre seg suf, m = pre ++ seg :: suf ∧
      (∀ s0 ∈ pre, ¬(s0.start ≤ ci ∧ ci < s0.stop)) ∧
      seg.start ≤ ci ∧ ci < seg.stop ∧ nid = seg.nodeId ∧ off = ci - seg.start := by
  induction m with
  | nil => simp [findTarget] at h
  | cons seg rest ih =>
      by_cases hc : seg.start ≤ ci ∧ ci < seg.stop
      · rw [findTarget, if_pos hc] at h
        refine ⟨[], seg, rest, by simp, by simp, hc.1, hc.2, ?_, ?_⟩
        · cases h; rfl
        · cases h; rfl
      · rw [findTarget, if_neg hc] at h
        obtain ⟨pre, seg2, suf, hm, hpre, h1, h2, h3, h4⟩ := ih h
        refine ⟨seg :: pre, seg2, suf, by rw [hm]; simp, ?_, h1, h2, h3, h4⟩
        intro s0 hs0
        rcases List.mem_cons.mp hs0 with h5 | h5
        · rw [h5]; exact hc
        · exact hpre s0 h5

theorem findTarget_none_iff (m : List Segment) (ci : Nat) :
    findTarget m ci = none ↔ ∀ seg ∈ m, ¬(seg.start ≤ ci ∧ ci < seg.stop) := by
  induction m with
  | nil => simp [findTarget]
  | cons seg rest ih =>
      by_cases hc : seg.start ≤ ci ∧ ci < seg.stop
      · rw [findTarget, if_pos hc]
        simp only [List.mem_cons]
        constructor
        · intro h; simp at h
        · intro h; exact absurd hc (h seg (Or.inl rfl))
      · rw [findTarget, if_neg hc, ih]
        constructor
        · intro h seg2 hm
          rcases List.mem_cons.mp hm with h5 | h5
          · rw [h5]; exact hc
          · exact h seg2 h5
        · intro h seg2 hm
          exact h seg2 (List.mem_cons_of_mem seg hm)

theorem markStep_of_findTarget_none (ci cl : Nat) (st : TtsState)
    (h : findTarget st.textNodesMap ci = none) : markStep ci cl st = st := by
  simp [markStep, h]

/-! ### Segment-map well-formedness -/

theorem isBlank_false_ne_nil (s : List Char) (h : isBlank s = false) : s ≠ [] := by
  intro hn
  rw [hn] at h
  simp [isBlank] at h

theorem mapLeavesL_nonblank (l : List DNode) :
    ∀ b p, p ∈ mapLeavesL b l → isBlank p.2 = false := by
  induction l using nodeListInd with
  | hnil => intro b p hp; simp [mapLeavesL] at hp
  | htext id s rest ih =>
      intro b p hp
      rw [mapLeavesL] at hp
      rcases List.mem_append.mp hp with h1 | h1
      · by_cases hb : (isBlank s || b) = true
        · rw [if_pos hb] at h1; simp at h1
        · rw [if_neg hb] at h1
          simp at h1
          rw [h1]
          simp only [Bool.or_eq_true, not_or, Bool.not_eq_true] at hb
          exact hb.1
      · exact ih b p h1
  | helem id cls cs rest hcs ih =>
      intro b p hp
      rw [mapLeavesL] at hp
      rcases List.mem_append.mp hp with h1 | h1
      · exact hcs (isHighlight cls) p h1
      · exact ih b p h1

theorem buildSegs_start_lt (ls : List (Nat × List Char)) (o : Nat)
    (h : ∀ p ∈ ls, isBlank p.2 = false) :
    ∀ seg ∈ buildSegs ls o, seg.start < seg.stop := by
  induction ls generalizing o with
  | nil => intro seg hs; simp [buildSegs] at hs
  | cons p rest ih =>
      intro seg hs
      obtain ⟨id, s⟩ := p
      rw [buildSegs] at hs
      rcases List.mem_cons.mp hs with h1 | h1
      · rw [h1]
        have hne : s ≠ [] := isBlank_false_ne_nil s (h (id, s) (List.mem_cons_self _ _))
        have : 0 < s.length := List.length_pos.mpr hne
        simp
        omega
      · exact ih (o + s.length) (fun q hq => h q (List.mem_cons_of_mem _ hq)) seg h1

theorem buildSegs_head_start (ls : List (Nat × List Char)) (o : Nat) :
    ∀ seg ∈ (buildSegs ls o).head?, seg.start = o := by
  cases ls with
  | nil => intro seg hs; simp [buildSegs] at hs
  | cons p rest =>
      intro seg hs
      obtain ⟨id, s⟩ := p
      rw [buildSegs] at hs
      simp only [List.head?_cons, Option.mem_def, Option.some.injEq] at hs
      subst hs
      rfl

theorem buildSegs_chain (ls : List (Nat × List Char)) (o : Nat) :
    List.Chain' (fun a b => a.stop = b.start) (buildSegs ls o) := by
  induction ls generalizing o with
  | nil => simp [buildSegs]
  | cons p rest ih =>
      obtain ⟨id, s⟩ := p
      rw [buildSegs]
      refine List.chain'_cons'.mpr ⟨?_, ih (o + s.length)⟩
      intro b hb
      exact (buildSegs_head_start rest (o + s.length) b hb).symm

/-! ### The two walkers against the common leaf enumeration -/

theorem walkerTextsL_eq_filter (l : List DNode) :
    ∀ ph, walkerTextsL l =
      ((allLeavesL ph l).filter (fun p => !(isBlank p.2.2))).map (fun p => p.2.2) := by
  induction l using nodeListInd with
  | hnil => intro ph; simp [walkerTextsL, allLeavesL]
  | htext id s rest ih =>
      intro ph
      rw [walkerTextsL, allLeavesL, ih ph]
      by_cases hb : isBlank s = true
      · simp [List.filter, hb]
      · simp only [Bool.not_eq_true] at hb
        simp [List.filter, hb]
  | helem id cls cs rest hcs ih =>
      intro ph
      rw [walkerTextsL, allLeavesL, List.filter_append, List.map_append,
        hcs (isHighlight cls), ih ph]

theorem mapLeavesL_eq_filter (l : List DNode) :
    ∀ ph, mapLeavesL ph l =
      ((allLeavesL ph l).filter (fun p => !(isBlank p.2.2) && !p.1)).map
        (fun p => (p.2.1, p.2.2)) := by
  induction l using nodeListInd with
  | hnil => intro ph; simp [mapLeavesL, allLeavesL]
  | htext id s rest ih =>
      intro ph
      rw [mapLeavesL, allLeavesL, ih ph]
      by_cases hb : (isBlank s || ph) = true
      · rw [if_pos hb]
        have : (!(isBlank s) && !ph) = false := by
          rcases Bool.or_eq_true _ _ |>.mp hb with h1 | h1 <;> simp [h1]
        simp [List.filter, this]
      · rw [if_neg hb]
        have : (!(isBlank s) && !ph) = true := by
          simp only [Bool.or_eq_true, not_or, Bool.not_eq_true] at hb
          simp [hb.1, hb.2]
        simp [List.filter, this]
  | helem id cls cs rest hcs ih =>
      intro ph
      rw [mapLeavesL, allLeavesL, List.filter_append, List.map_append,
        hcs (isHighlight cls), ih ph]

/-! ### Clear on a marker-free tree -/

theorem unwrapL_of_countHlL_zero (l : List DNode) :
    countHlL l = 0 → unwrapL l = l := by
  induction l using nodeListInd with
  | hnil => intro h; simp [unwrapL]
  | htext id s rest ih =>
      intro h
      rw [countHlL] at h
      rw [unwrapL, ih h]
  | helem id cls cs rest hcs ih =>
      intro h
      rw [countHlL] at h
      have hhl : isHighlight cls = false := by
        by_cases hh : isHighlight cls = true
        · rw [hh] at h; simp at h
        · exact Bool.not_eq_true _ |>.mp hh
      rw [hhl] at h
      simp at h
      rw [unwrapL, hhl]
      simp [hcs h.1, ih h.2]

theorem unwrapRoot_of_markerCount_zero (t : DNode) (h : markerCount t = 0) :
    unwrapRoot t = t := by
  cases t with
  | text id s => rfl
  | elem id cls cs =>
      rw [markerCount] at h
      rw [unwrapRoot, unwrapL_of_countHlL_zero cs h]

/-! ### Splicing inside a one-hole context -/

theorem idsOfL_append (l1 l2 : List DNode) :
    idsOfL (l1 ++ l2) = idsOfL l1 ++ idsOfL l2 := by
  induction l1 using nodeListInd with
  | hnil => simp [idsOfL]
  | htext id s rest ih => simp [idsOfL, ih]
  | helem id cls cs rest ihcs ih => simp [idsOfL, ih]

theorem idsOf_sub_cons (m : DNode) (rest : List DNode) (j : Nat) (h : j ∈ idsOf m) :
    j ∈ idsOfL (m :: rest) := by
  cases m with
  | text id s =>
      rw [idsOf] at h
      simp at h
      simp [idsOfL, h]
  | elem id cls cs =>
      rw [idsOf] at h
      rw [idsOfL]
      rcases List.mem_cons.mp h with h1 | h1
      · simp [h1]
      · simp [List.mem_cons, List.mem_append, h1]

theorem replaceFirstL_skip (i : Nat) (repl : List DNode) (l : List DNode) :
    ∀ rest, ¬ i ∈ idsOfL l →
      replaceFirstL i repl (l ++ rest) = l ++ replaceFirstL i repl rest := by
  induction l using nodeListInd with
  | hnil => intro rest h; simp
  | htext id s l2 ih =>
      intro rest h
      rw [idsOfL] at h
      simp only [List.mem_cons, not_or] at h
      have hid : ¬ id = i := fun hh => h.1 hh.symm
      rw [List.cons_append, replaceFirstL, if_neg hid, ih rest h.2]
      rfl
  | helem id cls cs l2 ihcs ih =>
      intro rest h
      rw [idsOfL] at h
      simp only [List.mem_cons, List.mem_append, not_or] at h
      have hid : ¬ id = i := fun hh => h.1 hh.symm
      rw [List.cons_append, replaceFirstL, if_neg hid, if_neg h.2.1, ih rest h.2.2]
      rfl

theorem findNodeByIdL_skip (i : Nat) (l : List DNode) :
    ∀ rest, ¬ i ∈ idsOfL l → findNodeByIdL i (l ++ rest) = findNodeByIdL i rest := by
  induction l using nodeListInd with
  | hnil => intro rest h; simp
  | htext id s l2 ih =>
      intro rest h
      rw [idsOfL] at h
      simp only [List.mem_cons, not_or] at h
      have hid : ¬ id = i := fun hh => h.1 hh.symm
      rw [List.cons_append, findNodeByIdL, if_neg hid, ih rest h.2]
  | helem id cls cs l2 ihcs ih =>
      intro rest h
      rw [idsOfL] at h
      simp only [List.mem_cons, List.mem_append, not_or] at h
      have hid : ¬ id = i := fun hh => h.1 hh.symm
      rw [List.cons_append, findNodeByIdL, if_neg hid,
        findNodeByIdL_eq_none i cs h.2.1, ih rest h.2.2]

theorem ctx_plug_shape (c : Ctx) (ns : List DNode) :
    ∃ cls2 L2, c.plug ns = DNode.elem (ctxHeadId c) cls2 L2 := by
  cases c with
  | here id cls l r => exact ⟨cls, l ++ ns ++ r, rfl⟩
  | deeper id cls l c r => exact ⟨cls, l ++ c.plug ns :: r, rfl⟩

theorem ctxHeadId_mem (c : Ctx) : ctxHeadId c ∈ ctxIds c := by
  cases c with
  | here id cls l r => simp [ctxHeadId, ctxIds]
  | deeper id cls l c r => simp [ctxHeadId, ctxIds]

theorem ctx_plug_mem (c : Ctx) (i : Nat) (s : List Char) :
    i ∈ idsOf (c.plug [DNode.text i s]) := by
  induction c with
  | here id cls l r =>
      rw [Ctx.plug, idsOf]
      simp [idsOfL_append, idsOfL]
  | deeper id cls l c r ih =>
      rw [Ctx.plug, idsOf, idsOfL_append]
      have := idsOf_sub_cons (c.plug [DNode.text i s]) r i ih
      simp only [List.mem_cons, List.mem_append]
      exact Or.inr (Or.inr this)

theorem findNodeById_plug (c : Ctx) (i : Nat) (s : List Char) (h : ¬ i ∈ ctxIds c) :
    findNodeById i (c.plug [DNode.text i s]) = some (DNode.text i s) := by
  induction c with
  | here id cls l r =>
      rw [ctxIds] at h
      simp only [List.mem_cons, List.mem_append, not_or] at h
      rw [Ctx.plug, findNodeById, if_neg (fun hh : id = i => h.1 hh.symm)]
      rw [show l ++ [DNode.text i s] ++ r = l ++ (DNode.text i s :: r) by simp]
      rw [findNodeByIdL_skip i l _ h.2.1, findNodeByIdL, if_pos rfl]
  | deeper id cls l c r ih =>
      rw [ctxIds] at h
      simp only [List.mem_cons, List.mem_append, not_or] at h
      obtain ⟨hne, ⟨hl, hc⟩, hr⟩ := h
      rw [Ctx.plug, findNodeById, if_neg (fun hh : id = i => hne hh.symm)]
      rw [findNodeByIdL_skip i l _ hl]
      obtain ⟨cls2, L2, hplug⟩ := ctx_plug_shape c [DNode.text i s]
      have hhead : ¬ ctxHeadId c = i := by
        intro hh
        exact hc (hh ▸ ctxHeadId_mem c)
      have hfind := ih hc
      rw [hplug] at hfind
      rw [findNodeById, if_neg hhead] at hfind
      rw [hplug, findNodeByIdL, if_neg hhead, hfind]

theorem replaceFirst_plug (c : Ctx) (i : Nat) (s : List Char) (repl : List DNode)
    (h : ¬ i ∈ ctxIds c) :
    replaceFirst i repl (c.plug [DNode.text i s]) = c.plug repl := by
  induction c with
  | here id cls l r =>
      rw [ctxIds] at h
      simp only [List.mem_cons, List.mem_append, not_or] at h
      rw [Ctx.plug, replaceFirst]
      rw [show l ++ [DNode.text i s] ++ r = l ++ (DNode.text i s :: r) by simp]
      rw [replaceFirstL_skip i repl l _ h.2.1, replaceFirstL, if_pos rfl, Ctx.plug]
      rw [List.append_assoc]
  | deeper id cls l c r ih =>
      rw [ctxIds] at h
      simp only [List.mem_cons, List.mem_append, not_or] at h
      obtain ⟨hne, ⟨hl, hc⟩, hr⟩ := h
      rw [Ctx.plug, replaceFirst, replaceFirstL_skip i repl l _ hl]
      obtain ⟨cls2, L2, hplug⟩ := ctx_plug_shape c [DNode.text i s]
      have hhead : ¬ ctxHeadId c = i := by
        intro hh
        exact hc (hh ▸ ctxHeadId_mem c)
      have hmem : i ∈ idsOfL L2 := by
        have := ctx_plug_mem c i s
        rw [hplug, idsOf] at this
        rcases List.mem_cons.mp this with h1 | h1
        · exact absurd h1.symm hhead
        · exact h1
      have hrepl := ih hc
      rw [hplug, replaceFirst] at hrepl
      rw [hplug, replaceFirstL, if_neg hhead, if_pos hmem, hrepl, Ctx.plug]

/-! ### Claim theorems -/

/-- C1: the flat text handed to the speech engine (`extractCommentText`) is
NOT byte-identical to the concatenation, in segment order, of the segment
texts recorded by `buildTextNodesMap`: on a comment with the two leaves
"Hello" and "world", `extractCommentText` inserts a separator space
(content.js:239) while the offset map advances by `text.length` only
(content.js:270), so the two coordinate spaces diverge.  This theorem
evaluates the code at the failing input. -/
theorem c1_separator_divergence :
    extractCommentText sepTree = "Hello world".toList ∧
    mapText (buildTextNodesMap sepTree) = "Helloworld".toList ∧
    extractCommentText sepTree ≠ mapText (buildTextNodesMap sepTree) := by
  refine ⟨?_, ?_, ?_⟩
  · simp [extractCommentText, sepTree, walkerTexts, walkerTextsL, isBlank, trimL]
  · simp [mapText, buildTextNodesMap, sepTree, mapLeaves, mapLeavesL, normalizeTree,
      normalizeL, mergeTexts, isBlank, isHighlight, buildSegs]
  · simp [extractCommentText, sepTree, walkerTexts, walkerTextsL, isBlank, trimL,
      mapText, buildTextNodesMap, mapLeaves, mapLeavesL, normalizeTree,
      normalizeL, mergeTexts, isHighlight, buildSegs]

/-- C2: for every session state and every progress event, one mark step
(`markStep`: split the resolved node, wrap the word in the decoration span)
followed by one clear step (`clearAllHighlights`: replace spans by plain
text nodes and merge adjacent text nodes) leaves the subtree's concatenated
text content character-for-character identical to before the cycle. -/
theorem c2_round_trip_decoration (st : TtsState) (ci cl : Nat) :
    textContent (clearAllHighlights (markStep ci cl st)).tree = textContent st.tree := by
  rw [textContent_clearAllHighlights, textContent_markStep]

/-- C3: after any nonempty sequence of progress events and terminal
transitions — including duplicate or out-of-order offsets — at most one
decoration marker (element with class tts-highlight) exists in the observed
subtree: every `highlightWord` call first removes all existing markers, and
every terminal transition removes them unconditionally. -/
theorem c3_marker_cardinality (st : TtsState) (evs : List TtsEvent) (h : evs ≠ []) :
    observedMarkers (evs.foldl stepEvent st) ≤ 1 := by
  cases evs with
  | nil => exact absurd rfl h
  | cons e rest =>
      rw [List.foldl_cons]
      exact observedMarkers_foldl rest (stepEvent st e) (observedMarkers_stepEvent st e)

/-- C3 witness: a concrete event sequence on a concrete session. -/
theorem c3_witness :
    observedMarkers ([TtsEvent.word 0 1, TtsEvent.terminal].foldl stepEvent unmergedState) ≤ 1 :=
  c3_marker_cardinality unmergedState [TtsEvent.word 0 1, TtsEvent.terminal] (by simp)

/-- C7 counterexample: the marker-content exclusion does NOT apply to every
traversal: `extractCommentText`'s walker (which feeds the spoken text) has
no tts-highlight clause, so a root whose content is a marker holding "Hi"
is spoken as "Hi" rather than excluded; and `buildTextNodesMap`'s clause
checks only the immediate parent, so a leaf nested one element deeper
inside a marker is still mapped. -/
theorem c7_counterexample :
    extractCommentText hlTree1 = "Hi".toList ∧
    walkerTexts hlTree1 = ["Hi".toList] ∧
    mapLeaves hlTree2 = [(3, "deep".toList)] := by
  refine ⟨?_, ?_, ?_⟩
  · simp [extractCommentText, hlTree1, walkerTexts, walkerTextsL, isBlank, trimL]
  · simp [hlTree1, walkerTexts, walkerTextsL, isBlank]
  · simp [mapLeaves, mapLeavesL, hlTree2, isBlank, isHighlight]

/-- C7 (amended): both walkers enumerate exactly the text leaves under the
root in document order; `buildTextNodesMap`'s walker keeps a leaf iff its
trimmed content is nonempty and its immediate parent is not a decoration
marker, while `extractCommentText`'s walker keeps a leaf iff its trimmed
content is nonempty — the marker exclusion applies only to the offset-space
traversal, and only via the immediate parent. -/
theorem c7_walker_characterization (t : DNode) :
    walkerTexts t =
      ((allLeavesUnder t).filter (fun p => !(isBlank p.2.2))).map (fun p => p.2.2) ∧
    mapLeaves t =
      ((allLeavesUnder t).filter (fun p => !(isBlank p.2.2) && !p.1)).map
        (fun p => (p.2.1, p.2.2)) := by
  cases t with
  | text id s => simp [walkerTexts, mapLeaves, allLeavesUnder]
  | elem id cls cs =>
      exact ⟨walkerTextsL_eq_filter cs (isHighlight cls),
        mapLeavesL_eq_filter cs (isHighlight cls)⟩

/-- C8: every segment map produced by `buildTextNodesMap` is well-formed:
each segment satisfies start < end, and consecutive segments are contiguous
(each segment's end equals the next segment's start), so the map is
strictly ascending and non-overlapping and no inserted separator is ever
counted in the offset space. -/
theorem c8_segment_map_wellformed (root : DNode) :
    (∀ seg ∈ buildTextNodesMap root, seg.start < seg.stop) ∧
    List.Chain' (fun a b => a.stop = b.start) (buildTextNodesMap root) := by
  constructor
  · rw [buildTextNodesMap]
    refine buildSegs_start_lt _ 0 ?_
    intro p hp
    cases hn : normalizeTree root with
    | text id s => rw [hn] at hp; simp [mapLeaves] at hp
    | elem id cls cs =>
        rw [hn] at hp
        exact mapLeavesL_nonblank cs (isHighlight cls) p hp
  · rw [buildTextNodesMap]
    exact buildSegs_chain _ 0

/-- C8 witness: the first segment of Scenario A's map has start < end. -/
theorem c8_witness :
    ({ nodeId := 1, text := "Hello ".toList, start := 0, stop := 6 } : Segment).start <
      ({ nodeId := 1, text := "Hello ".toList, start := 0, stop := 6 } : Segment).stop :=
  (c8_segment_map_wellformed demoA).1 _
    (by
      simp [buildTextNodesMap, demoA, mapLeaves, mapLeavesL, normalizeTree, normalizeL,
        mergeTexts, isBlank, isHighlight, buildSegs])

/-- C9 counterexample: invoking `clearAllHighlights` with no decoration
marker active is not always a tree no-op: rebuilding the map calls
`commentElement.normalize()` (content.js:251), which merges the adjacent
sibling text leaves "a" and "b" even though no marker exists. -/
theorem c9_counterexample :
    markerCount unmergedState.tree = 0 ∧
    unmergedState.currentHighlightSpan = none ∧
    (clearAllHighlights unmergedState).tree ≠ unmergedState.tree := by
  refine ⟨?_, rfl, ?_⟩
  · simp [unmergedState, markerCount, countHlL]
  · simp [clearAllHighlights, unmergedState, buildMapOn, unwrapRoot, unwrapL, normalizeTree,
      normalizeL, mergeTexts, isHighlight, buildTextNodesMap]

/-- C9 (amended): invoking the clear operation when no decoration marker is
active raises no exception and performs no tree mutation beyond the DOM
normalization done by the map rebuild: the concatenated text content is
unchanged, the active-marker reference is cleared, and on an
already-normalized tree the document tree is left exactly as it was. -/
theorem c9_idempotent_clear (st : TtsState) (hm : markerCount st.tree = 0) :
    textContent (clearAllHighlights st).tree = textContent st.tree ∧
    (clearAllHighlights st).currentHighlightSpan = none ∧
    (normalizeTree st.tree = st.tree → (clearAllHighlights st).tree = st.tree) := by
  refine ⟨textContent_clearAllHighlights st, ?_, ?_⟩
  · unfold clearAllHighlights
    by_cases h : st.attached = true <;> simp [h]
  · intro hn
    unfold clearAllHighlights
    by_cases h : st.attached = true
    · rw [if_pos h]
      show (buildMapOn (unwrapRoot st.tree)).1 = st.tree
      rw [buildMapOn, unwrapRoot_of_markerCount_zero st.tree hm, hn]
    · rw [if_neg h]

/-- C9 witness: on a concrete normalized, marker-free session the clear
operation leaves the tree unchanged. -/
theorem c9_witness : (clearAllHighlights plainState).tree = plainState.tree :=
  (c9_idempotent_clear plainState
      (by simp [plainState, markerCount, countHlL])).2.2
    (by simp [plainState, normalizeTree, normalizeL, mergeTexts])

/-- C10: for every node text and every charIndex/charLength — including
charLength values extending past the end of the node — the three fragments
computed by the mark step satisfy before ++ word ++ after = original text,
with the word silently truncated at the node boundary, so no single mark
step loses or duplicates document text. -/
theorem c10_split_preserves_text :
    (∀ (s : List Char) (off cl : Nat),
      substringJs s 0 off ++ substringJs s off (off + cl) ++ substringFrom s (off + cl) = s) ∧
    (∀ (s : List Char) (off cl : Nat),
      substringJs s off (off + cl) = (s.drop off).take cl) ∧
    (∀ (ci cl : Nat) (st : TtsState),
      textContent (markStep ci cl st).tree = textContent st.tree) := by
  refine ⟨substring_split, ?_, fun ci cl st => textContent_markStep ci cl st⟩
  intro s off cl
  rw [substringJs, List.drop_take, Nat.add_sub_cancel_left]

/-- C4: the position resolver returns the first segment in order with
start <= charIndex < end, computing nodeOffset = charIndex - start; if no
segment satisfies the condition it returns none and the mark step leaves
the tree unmutated; and on Scenario A's root (two leaves "Hello " and
"world!") resolving charIndex = 6 yields the second leaf (id 3) at
nodeOffset = 0 over the map [{0,6},{6,12}]. -/
theorem c4_position_resolver :
    (∀ (m : List Segment) (ci nid off : Nat), findTarget m ci = some (nid, off) →
      ∃ pre seg suf, m = pre ++ seg :: suf ∧
        (∀ s0 ∈ pre, ¬(s0.start ≤ ci ∧ ci < s0.stop)) ∧
        seg.start ≤ ci ∧ ci < seg.stop ∧ nid = seg.nodeId ∧ off = ci - seg.start) ∧
    (∀ (m : List Segment) (ci : Nat),
      findTarget m ci = none ↔ ∀ seg ∈ m, ¬(seg.start ≤ ci ∧ ci < seg.stop)) ∧
    (∀ (ci cl : Nat) (st : TtsState), findTarget st.textNodesMap ci = none →
      markStep ci cl st = st) ∧
    buildTextNodesMap demoA =
      [{ nodeId := 1, text := "Hello ".toList, start := 0, stop := 6 },
       { nodeId := 3, text := "world!".toList, start := 6, stop := 12 }] ∧
    findTarget (buildTextNodesMap demoA) 6 = some (3, 0) := by
  refine ⟨findTarget_some_spec, findTarget_none_iff, markStep_of_findTarget_none, ?_, ?_⟩
  · simp [buildTextNodesMap, demoA, mapLeaves, mapLeavesL, normalizeTree, normalizeL,
      mergeTexts, isBlank, isHighlight, buildSegs]
  · simp [findTarget, buildTextNodesMap, demoA, mapLeaves, mapLeavesL, normalizeTree,
      normalizeL, mergeTexts, isBlank, isHighlight, buildSegs]

/-- C4 witness: a charIndex past the end of Scenario A's mapped text
resolves to none and the mark step returns the session unchanged. -/
theorem c4_witness : markStep 50 5 demoAState = demoAState :=
  c4_position_resolver.2.2.1 50 5 demoAState
    (by
      simp [demoAState, findTarget, buildTextNodesMap, demoA, mapLeaves, mapLeavesL,
        normalizeTree, normalizeL, mergeTexts, isBlank, isHighlight, buildSegs])

/-- C5: when a progress event resolves to a live text node (given here as
the unique leaf a one-hole context isolates), the mark step replaces
exactly that node by before = text[0:nodeOffset], the new decoration
marker holding word = text[nodeOffset:nodeOffset+charLength], and
after = text[nodeOffset+charLength:], in that order, removes the original
node, records the new marker as active, and rebuilds the (normalized)
map. -/
theorem c5_mark_structure (c : Ctx) (nid : Nat) (s : List Char) (st : TtsState)
    (ci cl off : Nat)
    (hatt : st.attached = true)
    (htree : st.tree = c.plug [DNode.text nid s])
    (hfresh : ¬ nid ∈ ctxIds c)
    (hres : findTarget st.textNodesMap ci = some (nid, off)) :
    markStep ci cl st =
      { tree := normalizeTree (c.plug
          [DNode.text (st.nextId + 2) (substringJs s 0 off),
           DNode.elem st.nextId ["tts-highlight"]
             [DNode.text (st.nextId + 1) (substringJs s off (off + cl))],
           DNode.text (st.nextId + 3) (substringFrom s (off + cl))]),
        attached := true,
        textNodesMap := buildTextNodesMap (c.plug
          [DNode.text (st.nextId + 2) (substringJs s 0 off),
           DNode.elem st.nextId ["tts-highlight"]
             [DNode.text (st.nextId + 1) (substringJs s off (off + cl))],
           DNode.text (st.nextId + 3) (substringFrom s (off + cl))]),
        currentHighlightSpan := some st.nextId,
        nextId := st.nextId + 4 } := by
  have hfind : findNodeById nid st.tree = some (DNode.text nid s) := by
    rw [htree]; exact findNodeById_plug c nid s hfresh
  have hmem : nid ∈ idsOf st.tree := by
    rw [htree]; exact ctx_plug_mem c nid s
  have hrepl : replaceFirst nid
      [DNode.text (st.nextId + 2) (substringJs s 0 off),
       DNode.elem st.nextId ["tts-highlight"]
         [DNode.text (st.nextId + 1) (substringJs s off (off + cl))],
       DNode.text (st.nextId + 3) (substringFrom s (off + cl))] st.tree =
      c.plug
        [DNode.text (st.nextId + 2) (substringJs s 0 off),
         DNode.elem st.nextId ["tts-highlight"]
           [DNode.text (st.nextId + 1) (substringJs s off (off + cl))],
         DNode.text (st.nextId + 3) (substringFrom s (off + cl))] := by
    rw [htree]
    exact replaceFirst_plug c nid s _ hfresh
  simp only [markStep, hres]
  rw [if_pos ⟨hatt, hmem⟩]
  simp only [hfind]
  rw [hrepl]
  simp [buildMapOn, hatt]

/-- C5 witness: the mark step on a concrete one-leaf session at
charIndex 1, charLength 1. -/
theorem c5_witness :
    markStep 1 1 c5state =
      { tree := normalizeTree ((Ctx.here 0 [] [] []).plug
          [DNode.text 22 (substringJs "hey".toList 0 1),
           DNode.elem 20 ["tts-highlight"]
             [DNode.text 21 (substringJs "hey".toList 1 2)],
           DNode.text 23 (substringFrom "hey".toList 2)]),
        attached := true,
        textNodesMap := buildTextNodesMap ((Ctx.here 0 [] [] []).plug
          [DNode.text 22 (substringJs "hey".toList 0 1),
           DNode.elem 20 ["tts-highlight"]
             [DNode.text 21 (substringJs "hey".toList 1 2)],
           DNode.text 23 (substringFrom "hey".toList 2)]),
        currentHighlightSpan := some 20,
        nextId := 24 } :=
  c5_mark_structure (Ctx.here 0 [] [] []) 7 "hey".toList c5state 1 1 1 rfl
    (by simp [c5state, Ctx.plug])
    (by simp [ctxIds, idsOfL])
    (by simp [c5state, findTarget])

/-- C6: if the comment root is detached when a progress event is handled,
the handler performs terminal cleanup — the session map is discarded, the
active-marker reference is cleared, and the detached tree is not mutated;
and if the resolved target node is not attached to the live tree, the mark
step performs no mutation at all. -/
theorem c6_detachment :
    (∀ (st : TtsState) (ci cl : Nat), st.attached = false →
      stepEvent st (TtsEvent.word ci cl) =
        { st with textNodesMap := [], currentHighlightSpan := none }) ∧
    (∀ (st : TtsState) (ci cl nid off : Nat),
      findTarget st.textNodesMap ci = some (nid, off) → ¬ nid ∈ idsOf st.tree →
      markStep ci cl st = st) := by
  constructor
  · intro st ci cl h
    simp only [stepEvent]
    rw [if_neg (by rw [h]; simp)]
    rw [clearAllHighlights, if_neg (by rw [h]; simp)]
  · intro st ci cl nid off hres hmem
    simp only [markStep, hres]
    rw [if_neg (fun hand => hmem hand.2)]

/-- C6 witness: a detached session's progress event only discards state,
and a stale map entry pointing at a removed node leaves the mark step
inert. -/
theorem c6_witness :
    stepEvent detachedState (TtsEvent.word 0 1) =
      { detachedState with textNodesMap := [], currentHighlightSpan := none } ∧
    markStep 0 2 staleMapState = staleMapState := by
  constructor
  · exact c6_detachment.1 detachedState 0 1 rfl
  · exact c6_detachment.2 staleMapState 0 2 99 0
      (by simp [staleMapState, findTarget])
      (by simp [staleMapState, idsOf, idsOfL])

end YtTts
